import Mathlib

/-
Verification of the SquadSync synchronization core against its design
specification.

The development is a shallow embedding of the client code:
  - constants.ts: AvailabilityStatus, FRIENDS, INITIAL_WEEKENDS (the seed
    schedule of 20 Saturdays starting 2026-05-09, all BUSY);
  - App.tsx: the engine state (weekends, isOfflineMode, isConnecting,
    syncError, lastSynced, the localStorage key squad_sync_offline),
    fetchData (bootstrap and polling), toggleStatus, shortlist.

Modelling conventions:
  - Calendar dates are modelled as day counts (days since 1970-01-01);
    2026-05-09 is day 20582.  The slot id, in the source the ISO-8601
    rendering d.toISOString() of the date, is modelled by the underlying
    day count itself: toISOString is injective on instants, and the code
    only ever compares ids for equality and parses them back with
    new Date(id), so the encoding is transparent.  Ids coming from the
    remote are likewise arbitrary Nat values.
  - A JavaScript status object (Record of participant to status) is an
    insertion-ordered dictionary; it is modelled as an association list
    List (String x Status).  The spread update with a computed key,
    used by toggleStatus, overwrites the value in place when the key is
    present and appends the entry otherwise (setKey below); property
    lookup is first-match lookup (getKey below).
  - React state setters become explicit state passing over EngineState;
    the network is modelled by the FetchResult / WriteResult outcome of
    each request.  lastSynced (a wall-clock Date in the source) is
    modelled as a presence flag, and isLoading (pure render gating) is
    omitted: no claim mentions either value.
-/

namespace SquadSync

/-- Availability of one participant on one weekend (AvailabilityStatus). -/
inductive Status
  | FREE
  | BUSY
deriving DecidableEq

/-- The fixed participant set (FriendName in types.ts). -/
inductive FriendName
  | Grant
  | Gary
  | Stu
  | Ian
deriving DecidableEq

/-- The string key under which a participant is stored in a status object. -/
def FriendName.str : FriendName → String
  | .Grant => "Grant"
  | .Gary => "Gary"
  | .Stu => "Stu"
  | .Ian => "Ian"

/-- FRIENDS from constants.ts. -/
def FRIENDS : List FriendName := [.Grant, .Gary, .Stu, .Ian]

/-- One schedulable weekend (WeekendAvailability in types.ts).  The date is
a day count; the id is the day count the ISO id string encodes. -/
structure Slot where
  id : Nat
  date : Nat
  status : List (String × Status)
deriving DecidableEq

/-- A schedule is the ordered list of weekends. -/
abbrev Schedule := List Slot

/-- Property lookup in a status object: the value at the first entry whose
key matches, as in JavaScript member access on the modelled dictionary. -/
def getKey (m : List (String × Status)) (k : String) : Option Status :=
  (m.find? fun p => decide (p.1 = k)).map Prod.snd

/-- The spread update with computed key used by toggleStatus: when the key
is present every entry carrying it is overwritten in place, otherwise the
new entry is appended at the end (JavaScript object update semantics). -/
def setKey (m : List (String × Status)) (k : String) (v : Status) :
    List (String × Status) :=
  if m.any fun p => decide (p.1 = k) then
    m.map fun p => if p.1 = k then (k, v) else p
  else m ++ [(k, v)]

/-- The in-memory flip of toggleStatus: FREE becomes BUSY, everything else
(BUSY, or an absent entry) becomes FREE, exactly as the conditional in
App.tsx computes newStatus. -/
def newStatusOf (m : List (String × Status)) (k : String) : Status :=
  if getKey m k = some Status.FREE then Status.BUSY else Status.FREE

/-- The FREE/BUSY involution the spec describes for a present entry. -/
def flipStatus : Status → Status
  | .FREE => .BUSY
  | .BUSY => .FREE

/-- updatedWeekend in toggleStatus: the slot with the named participant
flipped. -/
def toggleSlot (w : Slot) (n : FriendName) : Slot :=
  { w with status := setKey w.status n.str (newStatusOf w.status n.str) }

/-- The map over weekends performed by toggleStatus: every slot whose id
matches is replaced by its toggled version, all others are untouched. -/
def toggleSchedule (s : Schedule) (wid : Nat) (n : FriendName) : Schedule :=
  s.map fun w => if w.id = wid then toggleSlot w n else w

/-- Observation helper: the status value the named participant has in the
first slot carrying the given id (none when no slot carries the id, and
some none when the slot exists but lacks the participant key). -/
def getStatus (s : Schedule) (wid : Nat) (n : FriendName) :
    Option (Option Status) :=
  (s.find? fun w => decide (w.id = wid)).map fun w => getKey w.status n.str

/-- The shortlist predicate of App.tsx: every value of the status object is
FREE (Object.values followed by every). -/
def isFullyFreeB (w : Slot) : Bool :=
  w.status.all fun p => decide (p.2 = Status.FREE)

/-- shortlist from App.tsx: the weekends whose status object is all FREE. -/
def shortlist (s : Schedule) : Schedule :=
  s.filter isFullyFreeB

/-- The all-BUSY status object every seed slot carries (constants.ts). -/
def allBusy : List (String × Status) :=
  [("Grant", Status.BUSY), ("Gary", Status.BUSY),
   ("Stu", Status.BUSY), ("Ian", Status.BUSY)]

/-- Day count of 2026-05-09 (the Saturday the seed starts at). -/
def seedStartDay : Nat := 20582

/-- The seed generator of constants.ts: count slots at 7-day intervals from
the start day, each all BUSY, the id being the (injectively encoded) date. -/
def seedSchedule (startDay count : Nat) : Schedule :=
  (List.range count).map fun i =>
    { id := startDay + 7 * i
      date := startDay + 7 * i
      status := allBusy }

/-- INITIAL_WEEKENDS from constants.ts: 20 Saturdays from 2026-05-09. -/
def INITIAL_WEEKENDS : Schedule := seedSchedule seedStartDay 20

/-- The key list of a status object. -/
def statusKeys (w : Slot) : List String := w.status.map Prod.fst

/-- Invariant I1, key part: the key set of the status object is exactly the
configured participant set. -/
def keysOk (w : Slot) : Prop :=
  (statusKeys w).toFinset = (FRIENDS.map FriendName.str).toFinset

instance (w : Slot) : Decidable (keysOk w) := by
  unfold keysOk; infer_instance

/-- Well-formed slot: participant key set is exact and no key is
duplicated (invariant I1 of the data model). -/
def wfSlot (w : Slot) : Prop :=
  keysOk w ∧ (statusKeys w).Nodup

instance (w : Slot) : Decidable (wfSlot w) := by
  unfold wfSlot; infer_instance

/-- Semantic form of the shortlist membership condition: every participant
is FREE. -/
def allFree (w : Slot) : Prop :=
  ∀ n : FriendName, getKey w.status n.str = some Status.FREE

instance (w : Slot) : Decidable (allFree w) := by
  unfold allFree
  exact decidable_of_iff
    (∀ n ∈ FRIENDS, getKey w.status n.str = some Status.FREE)
    ⟨fun h n => h n (by cases n <;> simp [FRIENDS]), fun h n _ => h n⟩

/-- The session mode of the spec data model. -/
inductive Mode
  | CONNECTING
  | ONLINE
  | OFFLINE
deriving DecidableEq

/-- The client state of App.tsx.  weekends, isOfflineMode, isConnecting,
syncError are React state; lastSynced (a Date in the source) is modelled
as a presence flag; store is the localStorage key squad_sync_offline
(none when the key is unset).  isLoading is omitted (render gating only). -/
structure EngineState where
  weekends : Schedule
  isOfflineMode : Bool
  isConnecting : Bool
  syncError : Option String
  lastSynced : Bool
  store : Option Schedule
deriving DecidableEq

/-- The session mode the UI derives from the flags: Searching while
isConnecting, else Offline Mode or Live Syncing by isOfflineMode. -/
def EngineState.mode (st : EngineState) : Mode :=
  if st.isConnecting then .CONNECTING
  else if st.isOfflineMode then .OFFLINE
  else .ONLINE

/-- Outcome of one GET of /api/weekends as fetchData distinguishes them:
the distinguished 404, any other non-ok HTTP status, a network or decode
failure (the thrown path), or an ok response carrying a JSON array. -/
inductive FetchResult
  | notFound
  | httpError (code : Nat)
  | netError
  | ok (data : Schedule)

/-- Outcome of the POST issued to /api/weekends by a toggle: res.ok, or
the failure path (non-ok status or rejected fetch, both landing in the
catch handler). -/
inductive WriteResult
  | ok
  | fail

/-- The hydration applied to every snapshot the code adopts: the date is
re-derived from the id (new Date(w.id); the id, a nonempty ISO string, is
always truthy, so the fallbacks to w.date and Date.now() are dead). -/
def hydrate (s : Schedule) : Schedule :=
  s.map fun w => { w with date := w.id }

/-- The syncError message of the fetch catch handler. -/
def errUnstable : String := "Cloud connection unstable..."

/-- The syncError message of the toggle write failure handler. -/
def errPush : String := "Failed to push update!"

/-- fetchData from App.tsx as a state transformer over the response.
syncError is cleared at entry, so it is none in every non-throwing branch
and errUnstable on the throwing ones.  On 404 during the initial call the
client goes offline and adopts any stored snapshot; on a non-initial 404
only isConnecting is cleared.  A non-empty payload is adopted wholesale,
re-entering online mode; an empty payload on the initial call issues
initialize(INITIAL_WEEKENDS) and re-reads (the re-read is a later fetch
event).  All failures are absorbed: the transformer is total. -/
def fetchStep (st : EngineState) (isInitial : Bool) (r : FetchResult) :
    EngineState :=
  match r with
  | .notFound =>
    if isInitial then
      { st with
        isOfflineMode := true
        isConnecting := false
        syncError := none
        weekends :=
          match st.store with
          | some saved => hydrate saved
          | none => st.weekends }
    else { st with isConnecting := false, syncError := none }
  | .httpError _ => { st with syncError := some errUnstable }
  | .netError => { st with syncError := some errUnstable }
  | .ok data =>
    if data.isEmpty then { st with syncError := none }
    else
      { st with
        weekends := hydrate data
        lastSynced := true
        isOfflineMode := false
        isConnecting := false
        syncError := none }

/-- The full list the offline branch of toggleStatus writes to
localStorage: the current weekends with every id match replaced by the
given updated weekend. -/
def newFullList (s : Schedule) (wid : Nat) (uw : Slot) : Schedule :=
  s.map fun item => if item.id = wid then uw else item

/-- Persistence side effects a toggle can issue. -/
inductive Effect
  | remoteWrite (w : Slot)
  | localSave (s : Schedule)

/-- toggleStatus from App.tsx (current revision), returning the new state
and the persistence effects the map issues, one per id match (with unique
ids, at most one).  When no slot matches, the map rebuilds the list
unchanged and no effect fires.  Offline, each match saves its newFullList
to localStorage, the last save winning in store; online, each match posts
its updated weekend, a failure recording errPush and an ack recording
lastSynced.  wr is the shared outcome of the posts. -/
def toggleStepEff (st : EngineState) (wid : Nat) (n : FriendName)
    (wr : WriteResult) : EngineState × List Effect :=
  match (st.weekends.filter fun w => decide (w.id = wid)).getLast? with
  | none => ({ st with weekends := toggleSchedule st.weekends wid n }, [])
  | some wl =>
    let s' := toggleSchedule st.weekends wid n
    let ms := st.weekends.filter fun w => decide (w.id = wid)
    if st.isOfflineMode then
      ({ st with
          weekends := s'
          store := some (newFullList st.weekends wid (toggleSlot wl n)) },
       ms.map fun w => .localSave (newFullList st.weekends wid (toggleSlot w n)))
    else
      match wr with
      | .ok =>
        ({ st with weekends := s', lastSynced := true },
         ms.map fun w => .remoteWrite (toggleSlot w n))
      | .fail =>
        ({ st with weekends := s', syncError := some errPush },
         ms.map fun w => .remoteWrite (toggleSlot w n))

/-- toggleStatus of the earlier revision kept in App.tsx (the variant
without polling): identical except that the write failure handler sets
isOfflineMode instead of recording a syncError.  That revision has no
syncError, lastSynced or isConnecting state; those fields ride along
unchanged. -/
def toggleStepV1 (st : EngineState) (wid : Nat) (n : FriendName)
    (wr : WriteResult) : EngineState :=
  match (st.weekends.filter fun w => decide (w.id = wid)).getLast? with
  | none => { st with weekends := toggleSchedule st.weekends wid n }
  | some wl =>
    let s' := toggleSchedule st.weekends wid n
    if st.isOfflineMode then
      { st with
        weekends := s'
        store := some (newFullList st.weekends wid (toggleSlot wl n)) }
    else
      match wr with
      | .ok => { st with weekends := s' }
      | .fail => { st with weekends := s', isOfflineMode := true }

/-- An externally visible engine operation of the current revision: one
fetch (initial bootstrap read or poll tick) with its response, or one
user toggle with the outcome of its write. -/
inductive Event
  | fetch (isInitial : Bool) (r : FetchResult)
  | toggle (wid : Nat) (n : FriendName) (wr : WriteResult)

/-- One engine step. -/
def step (st : EngineState) (e : Event) : EngineState :=
  match e with
  | .fetch ini r => fetchStep st ini r
  | .toggle wid n wr => (toggleStepEff st wid n wr).1

/-- Running a sequence of operations. -/
def run (st : EngineState) (es : List Event) : EngineState :=
  es.foldl step st

/-- The mount state of the client: seed weekends, flags down, connecting,
with whatever the localStorage key holds from an earlier session. -/
def initState (store0 : Option Schedule) : EngineState :=
  { weekends := INITIAL_WEEKENDS
    isOfflineMode := false
    isConnecting := true
    syncError := none
    lastSynced := false
    store := store0 }

/-- Well-formed remote payload: every slot a successful read delivers
carries exactly the configured participant keys, as required of the
Schedule type the RemoteClient interface returns.  All other outcomes are
unconstrained. -/
def EventOk : Event → Prop
  | .fetch _ (.ok data) => ∀ w ∈ data, keysOk w
  | _ => True

/-- Engine invariant: every in-memory slot and every slot of the stored
snapshot carries exactly the configured participant keys. -/
def Inv (st : EngineState) : Prop :=
  (∀ w ∈ st.weekends, keysOk w)
  ∧ (∀ s, st.store = some s → ∀ w ∈ s, keysOk w)

/-! Concrete example inputs used to instantiate the theorems. -/

/-- Example slot: id and date are day 5, everyone BUSY. -/
def exSlot : Slot := { id := 5, date := 5, status := allBusy }

/-- Example slot in which every participant is FREE. -/
def exFreeSlot : Slot :=
  { id := 1
    date := 1
    status := [("Grant", Status.FREE), ("Gary", Status.FREE),
               ("Stu", Status.FREE), ("Ian", Status.FREE)] }

/-- An online session: mount with empty storage, first read succeeds with
a one-slot snapshot. -/
def exOnlineState : EngineState :=
  step (initState none) (.fetch true (.ok [exSlot]))

/-- An offline session: mount with empty storage, first read hits 404. -/
def exOfflineState : EngineState :=
  step (initState none) (.fetch true .notFound)

/-- A small offline session over a single busy slot. -/
def exOfflineSmall : EngineState :=
  { weekends := [exSlot]
    isOfflineMode := true
    isConnecting := false
    syncError := none
    lastSynced := false
    store := none }

/-! Helper lemmas about the status dictionary. -/

theorem getKey_update_of_any (m : List (String × Status)) (k : String)
    (v : Status) (h : (m.any fun p => decide (p.1 = k)) = true) :
    getKey (m.map fun p => if p.1 = k then (k, v) else p) k = some v := by
  induction m with
  | nil => simp at h
  | cons p ps ih =>
    by_cases hp : p.1 = k
    · simp [getKey, List.find?_cons, hp]
    · simp only [List.any_cons, Bool.or_eq_true, decide_eq_true_eq] at h
      rcases h with h | h
      · exact absurd h hp
      · simpa [getKey, List.find?_cons, hp] using ih h

theorem getKey_append_single (m : List (String × Status)) (k : String)
    (v : Status) (h : (m.any fun p => decide (p.1 = k)) = false) :
    getKey (m ++ [(k, v)]) k = some v := by
  have hnone : m.find? (fun p => decide (p.1 = k)) = none := by
    rw [List.find?_eq_none]
    intro a ha
    have := List.any_eq_false.mp h a ha
    simpa using this
  simp [getKey, List.find?_append, hnone]

/-- After the spread update, looking the key up yields the written value. -/
theorem getKey_setKey (m : List (String × Status)) (k : String) (v : Status) :
    getKey (setKey m k v) k = some v := by
  unfold setKey
  cases hany : (m.any fun p => decide (p.1 = k)) with
  | false => simpa [hany] using getKey_append_single m k v hany
  | true => simpa [hany] using getKey_update_of_any m k v hany

/-- Updating a key that is present leaves the key list unchanged. -/
theorem keys_setKey_of_any (m : List (String × Status)) (k : String)
    (v : Status) (h : (m.any fun p => decide (p.1 = k)) = true) :
    (setKey m k v).map Prod.fst = m.map Prod.fst := by
  unfold setKey
  rw [if_pos h, List.map_map]
  apply List.map_congr_left
  intro p _
  by_cases hp : p.1 = k <;> simp [hp]

/-- A key that occurs in the key list has a value. -/
theorem getKey_isSome_of_mem (m : List (String × Status)) (k : String)
    (h : k ∈ m.map Prod.fst) : ∃ v, getKey m k = some v := by
  induction m with
  | nil => simp at h
  | cons p ps ih =>
    by_cases hp : p.1 = k
    · exact ⟨p.2, by simp [getKey, List.find?_cons, hp]⟩
    · simp only [List.map_cons, List.mem_cons] at h
      rcases h with h | h
      · exact absurd h.symm hp
      · obtain ⟨v, hv⟩ := ih h
        exact ⟨v, by simpa [getKey, List.find?_cons, hp] using hv⟩

/-- With unique keys, the entry found for the key of a member is that
member itself. -/
theorem find?_eq_of_mem_of_nodup (m : List (String × Status))
    (p : String × Status) (hnd : (m.map Prod.fst).Nodup) (hp : p ∈ m) :
    m.find? (fun q => decide (q.1 = p.1)) = some p := by
  induction m with
  | nil => simp at hp
  | cons q qs ih =>
    rw [List.map_cons, List.nodup_cons] at hnd
    rcases List.mem_cons.mp hp with rfl | hmem
    · simp [List.find?_cons]
    · have hq : ¬ q.1 = p.1 := by
        intro he
        exact hnd.1 (he ▸ List.mem_map.mpr ⟨p, hmem, rfl⟩)
      simpa [List.find?_cons, hq] using ih hnd.2 hmem

/-! Helper lemmas about slots and schedules. -/

@[simp] theorem toggleSlot_id (w : Slot) (n : FriendName) :
    (toggleSlot w n).id = w.id := rfl

@[simp] theorem toggleSlot_date (w : Slot) (n : FriendName) :
    (toggleSlot w n).date = w.date := rfl

theorem getKey_toggleSlot (w : Slot) (n : FriendName) :
    getKey (toggleSlot w n).status n.str =
      some (newStatusOf w.status n.str) :=
  getKey_setKey w.status n.str (newStatusOf w.status n.str)

theorem find?_toggleSchedule (s : Schedule) (wid : Nat) (n : FriendName) :
    ((toggleSchedule s wid n).find? fun w => decide (w.id = wid)) =
      (s.find? fun w => decide (w.id = wid)).map fun w => toggleSlot w n := by
  induction s with
  | nil => rfl
  | cons w ws ih =>
    by_cases hw : w.id = wid
    · simp [toggleSchedule, List.find?_cons, hw]
    · simpa [toggleSchedule, List.find?_cons, hw] using ih

theorem find?_newFullList (s : Schedule) (wid : Nat) (u : Slot)
    (hu : u.id = wid) :
    ((newFullList s wid u).find? fun w => decide (w.id = wid)) =
      (s.find? fun w => decide (w.id = wid)).map fun _ => u := by
  induction s with
  | nil => rfl
  | cons w ws ih =>
    by_cases hw : w.id = wid
    · simp [newFullList, List.find?_cons, hw, hu]
    · simpa [newFullList, List.find?_cons, hw] using ih

theorem find?_hydrate (s : Schedule) (wid : Nat) :
    ((hydrate s).find? fun w => decide (w.id = wid)) =
      (s.find? fun w => decide (w.id = wid)).map
        fun w => { w with date := w.id } := by
  induction s with
  | nil => rfl
  | cons w ws ih =>
    by_cases hw : w.id = wid
    · simp [hydrate, List.find?_cons, hw]
    · simpa [hydrate, List.find?_cons, hw] using ih

/-- Hydration changes dates only, never an observed status. -/
theorem getStatus_hydrate (s : Schedule) (wid : Nat) (n : FriendName) :
    getStatus (hydrate s) wid n = getStatus s wid n := by
  unfold getStatus
  rw [find?_hydrate]
  cases s.find? fun w => decide (w.id = wid) <;> rfl

theorem toggleSchedule_eq_self (s : Schedule) (wid : Nat) (n : FriendName)
    (h : ∀ w ∈ s, ¬ w.id = wid) : toggleSchedule s wid n = s := by
  unfold toggleSchedule
  conv_rhs => rw [← List.map_id s]
  exact List.map_congr_left fun w hw => by simp [h w hw]

/-- With globally unique slot ids, the id matches of a found slot are that
slot alone. -/
theorem filter_id_eq_of_nodup (s : Schedule) (wid : Nat) (w0 : Slot)
    (hnd : (s.map Slot.id).Nodup)
    (hfind : (s.find? fun w => decide (w.id = wid)) = some w0) :
    (s.filter fun w => decide (w.id = wid)) = [w0] := by
  induction s with
  | nil => simp at hfind
  | cons w ws ih =>
    rw [List.map_cons, List.nodup_cons] at hnd
    by_cases hw : w.id = wid
    · rw [List.find?_cons_of_pos _ (by simpa using hw)] at hfind
      obtain rfl : w = w0 := by injection hfind
      rw [List.filter_cons_of_pos (by simpa using hw)]
      have hrest : (ws.filter fun w => decide (w.id = wid)) = [] := by
        rw [List.filter_eq_nil_iff]
        intro a ha haid
        exact hnd.1 (hw ▸ (by simpa using haid : a.id = wid) ▸
          List.mem_map.mpr ⟨a, ha, rfl⟩)
      rw [hrest]
    · rw [List.find?_cons_of_neg _ (by simpa using hw)] at hfind
      rw [List.filter_cons_of_neg (by simpa using hw)]
      exact ih hnd.2 hfind

theorem mem_of_getLast?_eq_some {α : Type} {l : List α} {a : α}
    (h : l.getLast? = some a) : a ∈ l := by
  obtain ⟨hne, rfl⟩ :=
    List.mem_getLast?_eq_getLast (l := l) (x := a) (by simp [h])
  exact List.getLast_mem hne

/-! Helper lemmas about modes and keys. -/

theorem mode_eq_OFFLINE_iff (st : EngineState) :
    st.mode = Mode.OFFLINE ↔
      st.isConnecting = false ∧ st.isOfflineMode = true := by
  unfold EngineState.mode
  cases hC : st.isConnecting <;> cases hO : st.isOfflineMode <;> simp

theorem mode_eq_ONLINE_iff (st : EngineState) :
    st.mode = Mode.ONLINE ↔
      st.isConnecting = false ∧ st.isOfflineMode = false := by
  unfold EngineState.mode
  cases hC : st.isConnecting <;> cases hO : st.isOfflineMode <;> simp

theorem str_mem_keys_of_keysOk {w : Slot} (hw : keysOk w) (n : FriendName) :
    n.str ∈ statusKeys w := by
  have h1 : n.str ∈ FRIENDS.map FriendName.str := by
    cases n <;> simp [FRIENDS, FriendName.str]
  exact List.mem_toFinset.mp (hw ▸ List.mem_toFinset.mpr h1)

theorem any_key_of_mem {w : Slot} {k : String} (hk : k ∈ statusKeys w) :
    (w.status.any fun p => decide (p.1 = k)) = true := by
  rw [List.any_eq_true]
  obtain ⟨p, hp, he⟩ := List.mem_map.mp hk
  exact ⟨p, hp, by simp [he]⟩

theorem keysOk_toggleSlot {w : Slot} (hw : keysOk w) (n : FriendName) :
    keysOk (toggleSlot w n) := by
  have hany := any_key_of_mem (str_mem_keys_of_keysOk hw n)
  unfold keysOk statusKeys at hw ⊢
  rw [show (toggleSlot w n).status =
        setKey w.status n.str (newStatusOf w.status n.str) from rfl,
      keys_setKey_of_any _ _ _ hany]
  exact hw

/-! Bridging lemma for the shortlist predicate. -/

/-- For a well-formed slot, the code predicate (every value of the status
object is FREE) coincides with the spec predicate (every participant is
FREE). -/
theorem isFullyFreeB_iff_allFree {w : Slot} (hw : wfSlot w) :
    isFullyFreeB w = true ↔ allFree w := by
  obtain ⟨hkeys, hnd⟩ := hw
  constructor
  · intro hall n
    rw [isFullyFreeB, List.all_eq_true] at hall
    obtain ⟨v, hv⟩ :=
      getKey_isSome_of_mem w.status n.str (str_mem_keys_of_keysOk hkeys n)
    cases hfq : w.status.find? fun p => decide (p.1 = n.str) with
    | none => rw [getKey, hfq] at hv; simp at hv
    | some q =>
      have hmem := List.mem_of_find?_eq_some hfq
      have hfreeq : q.2 = Status.FREE := by simpa using hall q hmem
      rw [getKey, hfq]
      simp [hfreeq]
  · intro hfree
    rw [isFullyFreeB, List.all_eq_true]
    intro p hp
    have hfind := find?_eq_of_mem_of_nodup w.status p hnd hp
    have hkmem : p.1 ∈ FRIENDS.map FriendName.str := by
      have : p.1 ∈ statusKeys w := List.mem_map.mpr ⟨p, hp, rfl⟩
      exact List.mem_toFinset.mp (hkeys ▸ List.mem_toFinset.mpr this)
    obtain ⟨n, _, hn⟩ := List.mem_map.mp hkmem
    have hval : getKey w.status p.1 = some p.2 := by
      unfold getKey; rw [hfind]; rfl
    rw [← hn] at hval
    have h2 := hval.symm.trans (hfree n)
    injection h2 with h2
    simp [h2]

/-! Claim C4: shortlist correctness. -/

/-- C4: for every schedule s, shortlist s contains exactly the slots of s
in which every participant is FREE, is a sublist of s (hence preserves the
chronological order of s), and is empty when no such slot exists.  The
well-formedness of the slots (invariant I1 of the data model) bridges the
code predicate, which ranges over the values of the status object, with
the per-participant reading of the claim. -/
theorem shortlist_correct (s : Schedule) (hwf : ∀ w ∈ s, wfSlot w) :
    (∀ w, w ∈ shortlist s ↔ w ∈ s ∧ allFree w)
    ∧ (shortlist s).Sublist s
    ∧ ((∀ w ∈ s, ¬ allFree w) → shortlist s = []) := by
  refine ⟨fun w => ?_, List.filter_sublist s, fun hnone => ?_⟩
  · rw [shortlist, List.mem_filter]
    constructor
    · rintro ⟨hmem, hfull⟩
      exact ⟨hmem, (isFullyFreeB_iff_allFree (hwf w hmem)).mp hfull⟩
    · rintro ⟨hmem, hfree⟩
      exact ⟨hmem, (isFullyFreeB_iff_allFree (hwf w hmem)).mpr hfree⟩
  · rw [shortlist, List.filter_eq_nil_iff]
    intro a ha hfull
    exact hnone a ha
      ((isFullyFreeB_iff_allFree (hwf a ha)).mp (by simpa using hfull))

/-- Witness for shortlist_correct at a concrete two-slot schedule. -/
theorem shortlist_correct_witness :
    (∀ w ∈ [exSlot, exFreeSlot], wfSlot w)
    ∧ ((∀ w, w ∈ shortlist [exSlot, exFreeSlot] ↔
          w ∈ [exSlot, exFreeSlot] ∧ allFree w)
       ∧ (shortlist [exSlot, exFreeSlot]).Sublist [exSlot, exFreeSlot]
       ∧ ((∀ w ∈ [exSlot, exFreeSlot], ¬ allFree w) →
            shortlist [exSlot, exFreeSlot] = [])) :=
  ⟨by decide, shortlist_correct [exSlot, exFreeSlot] (by decide)⟩

/-! Claim C5: double-toggle roundtrip. -/

/-- C5: for every schedule, slot id present in it and participant whose
key every slot carries, toggling twice returns the status of that slot for
that participant to its original value, the single in-memory flip mapping
FREE to BUSY and BUSY to FREE. -/
theorem toggle_twice_roundtrip (s : Schedule) (wid : Nat) (n : FriendName)
    (hpresent : ((s.find? fun w => decide (w.id = wid))).isSome)
    (hkeys : ∀ w ∈ s, n.str ∈ statusKeys w) :
    getStatus (toggleSchedule (toggleSchedule s wid n) wid n) wid n
      = getStatus s wid n
    ∧ (∀ v, getStatus s wid n = some (some v) →
        getStatus (toggleSchedule s wid n) wid n
          = some (some (flipStatus v))) := by
  obtain ⟨w0, hw0⟩ := Option.isSome_iff_exists.mp hpresent
  have hmem := List.mem_of_find?_eq_some hw0
  obtain ⟨v0, hv0⟩ := getKey_isSome_of_mem w0.status n.str (hkeys w0 hmem)
  have h1 : getStatus s wid n = some (some v0) := by
    unfold getStatus; rw [hw0]; simp [hv0]
  have hT1 : getStatus (toggleSchedule s wid n) wid n
      = some (some (newStatusOf w0.status n.str)) := by
    unfold getStatus
    rw [find?_toggleSchedule, hw0]
    simp [getKey_toggleSlot]
  have hT2 : getStatus (toggleSchedule (toggleSchedule s wid n) wid n) wid n
      = some (some (newStatusOf (toggleSlot w0 n).status n.str)) := by
    unfold getStatus
    rw [find?_toggleSchedule, find?_toggleSchedule, hw0]
    simp [getKey_toggleSlot]
  have hnew1 : newStatusOf w0.status n.str = flipStatus v0 := by
    unfold newStatusOf flipStatus
    cases v0 <;> simp [hv0]
  have hnew2 : newStatusOf (toggleSlot w0 n).status n.str = v0 := by
    unfold newStatusOf
    rw [getKey_toggleSlot, hnew1]
    cases v0 <;> simp [flipStatus]
  constructor
  · rw [hT2, hnew2, h1]
  · intro v hv
    rw [h1] at hv
    have hv' : v0 = v := by simpa using hv
    rw [hT1, hnew1, hv']

/-- Witness for toggle_twice_roundtrip at the one-slot busy schedule. -/
theorem toggle_twice_roundtrip_witness :
    ((([exSlot] : Schedule).find? fun w => decide (w.id = 5)).isSome)
    ∧ (∀ w ∈ ([exSlot] : Schedule), FriendName.Ian.str ∈ statusKeys w)
    ∧ (getStatus (toggleSchedule (toggleSchedule [exSlot] 5 .Ian) 5 .Ian)
          5 .Ian = getStatus [exSlot] 5 .Ian
       ∧ (∀ v, getStatus [exSlot] 5 .Ian = some (some v) →
           getStatus (toggleSchedule [exSlot] 5 .Ian) 5 .Ian
             = some (some (flipStatus v)))) :=
  ⟨by decide, by decide,
    toggle_twice_roundtrip [exSlot] 5 .Ian (by decide) (by decide)⟩

/-! Claim C6: the seed schedule generator. -/

/-- C6: the seed generator is deterministic, yields exactly count slots
(20 in the shipped configuration) at 7-day intervals from the start date,
every participant BUSY in every slot, with pairwise distinct ids, so two
invocations with identical parameters produce identical id sets with no
duplicates. -/
theorem seedSchedule_spec (startDay count : Nat) :
    (seedSchedule startDay count).length = count
    ∧ (seedSchedule startDay count).map Slot.date
        = (List.range count).map (fun i => startDay + 7 * i)
    ∧ (seedSchedule startDay count).map Slot.status
        = List.replicate count allBusy
    ∧ ((seedSchedule startDay count).map Slot.id).Nodup
    ∧ seedSchedule startDay count = seedSchedule startDay count
    ∧ INITIAL_WEEKENDS = seedSchedule seedStartDay 20
    ∧ INITIAL_WEEKENDS.length = 20 := by
  have hid : (seedSchedule startDay count).map Slot.id
      = (List.range count).map (fun i => startDay + 7 * i) := by
    rw [seedSchedule, List.map_map]; rfl
  refine ⟨?_, ?_, ?_, ?_, rfl, rfl, rfl⟩
  · simp [seedSchedule]
  · rw [seedSchedule, List.map_map]; rfl
  · rw [seedSchedule, List.map_map]
    have : (Slot.status ∘ fun i =>
        ({ id := startDay + 7 * i, date := startDay + 7 * i,
           status := allBusy } : Slot)) = fun _ => allBusy := rfl
    rw [this, List.map_const', List.length_range]
  · rw [hid]
    exact (List.nodup_range count).map
      (fun a b h => by omega)

/-! Claim C3: the participant key set is invariant. -/

theorem keysOk_of_status_allBusy {w : Slot} (h : w.status = allBusy) :
    keysOk w := by
  unfold keysOk statusKeys
  rw [h]
  decide

theorem keysOk_seedSchedule (startDay count : Nat) :
    ∀ w ∈ seedSchedule startDay count, keysOk w := by
  intro w hw
  obtain ⟨i, _, rfl⟩ := List.mem_map.mp hw
  exact keysOk_of_status_allBusy rfl

theorem keysOk_hydrate {s : Schedule} (h : ∀ w ∈ s, keysOk w) :
    ∀ w ∈ hydrate s, keysOk w := by
  intro w hw
  obtain ⟨w0, hw0, rfl⟩ := List.mem_map.mp hw
  exact h w0 hw0

theorem keysOk_toggleSchedule {s : Schedule} (h : ∀ w ∈ s, keysOk w)
    (wid : Nat) (n : FriendName) :
    ∀ w ∈ toggleSchedule s wid n, keysOk w := by
  intro w hw
  obtain ⟨w0, hw0, rfl⟩ := List.mem_map.mp hw
  by_cases hid : w0.id = wid
  · simpa [hid] using keysOk_toggleSlot (h w0 hw0) n
  · simpa [hid] using h w0 hw0

theorem keysOk_newFullList {s : Schedule} (h : ∀ w ∈ s, keysOk w)
    (wid : Nat) {u : Slot} (hu : keysOk u) :
    ∀ w ∈ newFullList s wid u, keysOk w := by
  intro w hw
  obtain ⟨w0, hw0, rfl⟩ := List.mem_map.mp hw
  by_cases hid : w0.id = wid
  · simpa [hid] using hu
  · simpa [hid] using h w0 hw0

/-- One engine step preserves the key invariant when the remote payload of
the step, if any, is well-formed. -/
theorem Inv_step {st : EngineState} {e : Event} (hinv : Inv st)
    (hev : EventOk e) : Inv (step st e) := by
  obtain ⟨hmem, hstore⟩ := hinv
  cases e with
  | fetch ini r =>
    cases r with
    | notFound =>
      cases ini with
      | true =>
        refine ⟨?_, fun s hs => hstore s hs⟩
        cases hst : st.store with
        | none => simpa [step, fetchStep, hst] using hmem
        | some saved =>
          simpa [step, fetchStep, hst] using
            keysOk_hydrate (hstore saved hst)
      | false => exact ⟨hmem, hstore⟩
    | httpError code => exact ⟨hmem, hstore⟩
    | netError => exact ⟨hmem, hstore⟩
    | ok data =>
      by_cases hemp : data.isEmpty
      · exact ⟨by simpa [step, fetchStep, hemp] using hmem,
               by simpa [step, fetchStep, hemp] using hstore⟩
      · refine ⟨?_, by simpa [step, fetchStep, hemp] using hstore⟩
        have hdata : ∀ w ∈ data, keysOk w := hev
        simpa [step, fetchStep, hemp] using keysOk_hydrate hdata
  | toggle wid n wr =>
    show Inv (toggleStepEff st wid n wr).1
    unfold toggleStepEff
    cases hlast : (st.weekends.filter fun w => decide (w.id = wid)).getLast?
        with
    | none => exact ⟨keysOk_toggleSchedule hmem wid n, hstore⟩
    | some wl =>
      have hwl : wl ∈ st.weekends :=
        (List.mem_filter.mp (mem_of_getLast?_eq_some hlast)).1
      have hwlOk : keysOk (toggleSlot wl n) :=
        keysOk_toggleSlot (hmem wl hwl) n
      by_cases hoff : st.isOfflineMode
      · refine ⟨by simpa [hoff] using keysOk_toggleSchedule hmem wid n, ?_⟩
        intro s hs
        simp only [hoff, if_true] at hs
        obtain rfl : newFullList st.weekends wid (toggleSlot wl n) = s := by
          simpa using hs
        exact keysOk_newFullList hmem wid hwlOk
      · cases wr with
        | ok =>
          exact ⟨by simpa [hoff] using keysOk_toggleSchedule hmem wid n,
                 by simpa [hoff] using hstore⟩
        | fail =>
          exact ⟨by simpa [hoff] using keysOk_toggleSchedule hmem wid n,
                 by simpa [hoff] using hstore⟩

theorem Inv_run {st : EngineState} {es : List Event} (hinv : Inv st)
    (hev : ∀ e ∈ es, EventOk e) : Inv (run st es) := by
  induction es generalizing st with
  | nil => exact hinv
  | cons e es ih =>
    exact ih (Inv_step hinv (hev e (List.mem_cons_self e es)))
      fun e he => hev e (List.mem_cons_of_mem _ he)

/-- C3: for every sequence of engine operations whose successful reads
deliver well-formed payloads, starting from a mount whose stored snapshot
(if any) is well-formed, every slot of the resulting schedule carries a
status whose key set is exactly the configured participant set - no
missing and no extra keys. -/
theorem engine_keyset_invariant (store0 : Option Schedule)
    (es : List Event)
    (h0 : ∀ s, store0 = some s → ∀ w ∈ s, keysOk w)
    (hev : ∀ e ∈ es, EventOk e) :
    ∀ w ∈ (run (initState store0) es).weekends, keysOk w := by
  have hinit : Inv (initState store0) :=
    ⟨keysOk_seedSchedule seedStartDay 20, h0⟩
  exact (Inv_run hinit hev).1

/-- Witness for engine_keyset_invariant: the empty trace from an empty
store, observed at the first seed slot. -/
theorem engine_keyset_invariant_witness :
    keysOk { id := 20582, date := 20582, status := allBusy } :=
  engine_keyset_invariant none [] (fun s h => by simp at h)
    (fun e he => by simp at he)
    { id := 20582, date := 20582, status := allBusy } (by decide)

/-! Claim C9: transient poll failures are absorbed. -/

/-- C9: a poll failing with a network fault or a non-404 HTTP error status
is absorbed: the error message is recorded in syncError, the session mode,
the in-memory schedule and the stored snapshot are unchanged.  fetchStep
is a total function of the response, so no exception reaches the caller:
the thrown error is caught inside fetchData. -/
theorem poll_transient_absorbed (st : EngineState) (ini : Bool) (c : Nat) :
    ((fetchStep st ini .netError).syncError = some errUnstable
      ∧ (fetchStep st ini .netError).mode = st.mode
      ∧ (fetchStep st ini .netError).weekends = st.weekends
      ∧ (fetchStep st ini .netError).store = st.store)
    ∧ ((fetchStep st ini (.httpError c)).syncError = some errUnstable
      ∧ (fetchStep st ini (.httpError c)).mode = st.mode
      ∧ (fetchStep st ini (.httpError c)).weekends = st.weekends
      ∧ (fetchStep st ini (.httpError c)).store = st.store) :=
  ⟨⟨rfl, rfl, rfl, rfl⟩, ⟨rfl, rfl, rfl, rfl⟩⟩

/-! Claim C8: bootstrap against an absent backend. -/

/-- C8: a 404 on the first bootstrap read switches the session to OFFLINE,
and when LocalStore holds a prior snapshot that snapshot (hydrated), not
the seed, becomes the in-memory schedule. -/
theorem bootstrap_notFound_offline (st : EngineState) :
    (fetchStep st true .notFound).mode = Mode.OFFLINE
    ∧ (∀ s, st.store = some s →
        (fetchStep st true .notFound).weekends = hydrate s) := by
  constructor
  · rfl
  · intro s hs
    simp [fetchStep, hs]

/-- Witness for bootstrap_notFound_offline: mount with a one-slot stored
snapshot, first read 404. -/
theorem bootstrap_notFound_offline_witness :
    (initState (some [exSlot])).store = some [exSlot]
    ∧ (fetchStep (initState (some [exSlot])) true .notFound).mode
        = Mode.OFFLINE
    ∧ (fetchStep (initState (some [exSlot])) true .notFound).weekends
        = hydrate [exSlot] :=
  ⟨rfl, (bootstrap_notFound_offline (initState (some [exSlot]))).1,
    (bootstrap_notFound_offline (initState (some [exSlot]))).2 [exSlot] rfl⟩

/-! Claim C10: toggling an absent slot id is a no-op. -/

/-- C10: for every state and slot id carried by no slot of the schedule,
a toggle leaves the engine state exactly unchanged and issues no
persistence effect: every slot is untouched, no remote write is posted and
nothing is written to LocalStore. -/
theorem toggle_absent_frame (st : EngineState) (wid : Nat) (n : FriendName)
    (wr : WriteResult) (habsent : ∀ w ∈ st.weekends, ¬ w.id = wid) :
    toggleStepEff st wid n wr = (st, []) := by
  have hfilter : (st.weekends.filter fun w => decide (w.id = wid)) = [] := by
    rw [List.filter_eq_nil_iff]
    intro a ha
    simpa using habsent a ha
  unfold toggleStepEff
  rw [hfilter]
  simp [toggleSchedule_eq_self st.weekends wid n habsent]

/-- Witness for toggle_absent_frame: toggling id 99 in the one-slot
offline session (its only slot has id 5). -/
theorem toggle_absent_frame_witness :
    (∀ w ∈ exOfflineSmall.weekends, ¬ w.id = 99)
    ∧ toggleStepEff exOfflineSmall 99 .Ian .ok = (exOfflineSmall, []) :=
  ⟨by decide, toggle_absent_frame exOfflineSmall 99 .Ian .ok (by decide)⟩

/-! Claim C7: offline toggles are durable. -/

/-- C7: with the session OFFLINE, a toggle of a present slot id writes the
full updated schedule to LocalStore, so a fresh load (hydrating the stored
snapshot) yields a schedule in which that slot shows the participant
status flipped relative to its value before the toggle.  Unique slot ids
and complete participant keys are the data model invariants I2 and I1. -/
theorem offline_toggle_durable (st : EngineState) (wid : Nat)
    (n : FriendName) (wr : WriteResult)
    (hoff : st.isOfflineMode = true)
    (hnd : (st.weekends.map Slot.id).Nodup)
    (hpresent : ((st.weekends.find? fun w => decide (w.id = wid))).isSome)
    (hkeys : ∀ w ∈ st.weekends, n.str ∈ statusKeys w) :
    ∃ v L, getStatus st.weekends wid n = some (some v)
      ∧ (toggleStepEff st wid n wr).1.store = some L
      ∧ getStatus (hydrate L) wid n = some (some (flipStatus v)) := by
  obtain ⟨w0, hw0⟩ := Option.isSome_iff_exists.mp hpresent
  have hmem := List.mem_of_find?_eq_some hw0
  obtain ⟨v0, hv0⟩ := getKey_isSome_of_mem w0.status n.str (hkeys w0 hmem)
  have hfl := filter_id_eq_of_nodup st.weekends wid w0 hnd hw0
  have hid0 : w0.id = wid := by simpa using List.find?_some hw0
  refine ⟨v0, newFullList st.weekends wid (toggleSlot w0 n), ?_, ?_, ?_⟩
  · unfold getStatus
    rw [hw0]
    simp [hv0]
  · unfold toggleStepEff
    rw [hfl]
    simp [hoff]
  · rw [getStatus_hydrate]
    unfold getStatus
    rw [find?_newFullList st.weekends wid (toggleSlot w0 n)
        (by simpa using hid0), hw0]
    simp [getKey_toggleSlot]
    unfold newStatusOf flipStatus
    cases v0 <;> simp [hv0]

/-- Witness for offline_toggle_durable: the one-slot offline session,
toggling Ian on slot 5. -/
theorem offline_toggle_durable_witness :
    exOfflineSmall.isOfflineMode = true
    ∧ (exOfflineSmall.weekends.map Slot.id).Nodup
    ∧ ((exOfflineSmall.weekends.find? fun w => decide (w.id = 5))).isSome
    ∧ (∀ w ∈ exOfflineSmall.weekends, FriendName.Ian.str ∈ statusKeys w)
    ∧ (∃ v L, getStatus exOfflineSmall.weekends 5 .Ian = some (some v)
        ∧ (toggleStepEff exOfflineSmall 5 .Ian .ok).1.store = some L
        ∧ getStatus (hydrate L) 5 .Ian = some (some (flipStatus v))) :=
  ⟨rfl, by decide, by decide, by decide,
    offline_toggle_durable exOfflineSmall 5 .Ian .ok rfl (by decide)
      (by decide) (by decide)⟩

/-! Claim C2: OFFLINE is not terminal in the code. -/

/-- C2 counterexample: a session that reached OFFLINE through the
bootstrap 404 is promoted back to ONLINE by the very next poll that
succeeds with a non-empty snapshot (the polling interval keeps firing
regardless of mode, and a non-empty payload clears isOfflineMode), so the
claim that the mode never returns to ONLINE within a session is false. -/
theorem offline_promoted_counterexample :
    exOfflineState.mode = Mode.OFFLINE
    ∧ (step exOfflineState (.fetch false (.ok [exSlot]))).mode
        = Mode.ONLINE :=
  ⟨rfl, rfl⟩

/-- C2 amended: once the mode is OFFLINE, every engine operation either
keeps it OFFLINE or is a poll that succeeded with a non-empty snapshot,
in which case the mode returns to ONLINE; in particular no toggle, no
failed poll, no 404 poll and no empty payload ever changes the mode away
from OFFLINE. -/
theorem offline_until_successful_poll (st : EngineState) (e : Event)
    (hoff : st.mode = Mode.OFFLINE) :
    (step st e).mode = Mode.OFFLINE
    ∨ (∃ ini data, e = .fetch ini (.ok data) ∧ data ≠ []
        ∧ (step st e).mode = Mode.ONLINE) := by
  obtain ⟨hC, hO⟩ := (mode_eq_OFFLINE_iff st).mp hoff
  cases e with
  | fetch ini r =>
    cases r with
    | notFound =>
      cases ini with
      | true => exact Or.inl rfl
      | false =>
        exact Or.inl ((mode_eq_OFFLINE_iff _).mpr ⟨rfl, hO⟩)
    | httpError code =>
      exact Or.inl ((mode_eq_OFFLINE_iff _).mpr ⟨hC, hO⟩)
    | netError =>
      exact Or.inl ((mode_eq_OFFLINE_iff _).mpr ⟨hC, hO⟩)
    | ok data =>
      by_cases hemp : data.isEmpty
      · refine Or.inl ?_
        have : step st (.fetch ini (.ok data))
            = { st with syncError := none } := by
          simp [step, fetchStep, hemp]
        rw [this]
        exact (mode_eq_OFFLINE_iff _).mpr ⟨hC, hO⟩
      · refine Or.inr ⟨ini, data, rfl, by simpa [List.isEmpty_iff] using hemp, ?_⟩
        have : (step st (.fetch ini (.ok data))).mode
            = ({ st with
                  weekends := hydrate data
                  lastSynced := true
                  isOfflineMode := false
                  isConnecting := false
                  syncError := none } : EngineState).mode := by
          simp [step, fetchStep, hemp]
        rw [this]
        rfl
  | toggle wid n wr =>
    refine Or.inl ?_
    show (toggleStepEff st wid n wr).1.mode = Mode.OFFLINE
    unfold toggleStepEff
    cases hlast : (st.weekends.filter fun w => decide (w.id = wid)).getLast?
        with
    | none => exact (mode_eq_OFFLINE_iff _).mpr ⟨hC, hO⟩
    | some wl =>
      simp only [hO, if_true]
      exact (mode_eq_OFFLINE_iff _).mpr ⟨hC, rfl⟩

/-- Witness for offline_until_successful_poll: a toggle in the offline
session keeps the mode OFFLINE. -/
theorem offline_until_successful_poll_witness :
    exOfflineState.mode = Mode.OFFLINE
    ∧ ((step exOfflineState (.toggle 5 .Ian .ok)).mode = Mode.OFFLINE
      ∨ (∃ ini data, (Event.toggle 5 .Ian .ok) = .fetch ini (.ok data)
          ∧ data ≠ []
          ∧ (step exOfflineState (.toggle 5 .Ian .ok)).mode
              = Mode.ONLINE)) :=
  ⟨rfl, offline_until_successful_poll exOfflineState (.toggle 5 .Ian .ok) rfl⟩

/-! Claim C1: the failed-write path. -/

/-- Auxiliary: the observed status of the toggled slot after one toggle. -/
theorem getStatus_toggleSchedule {s : Schedule} {wid : Nat} {w0 : Slot}
    (n : FriendName)
    (hw0 : (s.find? fun w => decide (w.id = wid)) = some w0) :
    getStatus (toggleSchedule s wid n) wid n
      = some (some (newStatusOf w0.status n.str)) := by
  unfold getStatus
  rw [find?_toggleSchedule, hw0]
  simp [getKey_toggleSlot]

/-- Auxiliary: on a present entry the computed new status is the flip. -/
theorem newStatusOf_eq_flip {m : List (String × Status)} {k : String}
    {v : Status} (hv : getKey m k = some v) :
    newStatusOf m k = flipStatus v := by
  unfold newStatusOf flipStatus
  cases v <;> simp [hv]

/-- C1 counterexample: in an ONLINE session, a toggle whose remote write
fails with a transient error leaves the mode ONLINE (not OFFLINE) and
writes nothing to LocalStore; only the in-memory flip of the claim
happens (Ian turns FREE), together with a recorded syncError. -/
theorem write_fail_counterexample :
    exOnlineState.mode = Mode.ONLINE
    ∧ getStatus exOnlineState.weekends 5 .Ian = some (some Status.BUSY)
    ∧ (step exOnlineState (.toggle 5 .Ian .fail)).mode ≠ Mode.OFFLINE
    ∧ (step exOnlineState (.toggle 5 .Ian .fail)).store = none
    ∧ getStatus (step exOnlineState (.toggle 5 .Ian .fail)).weekends 5 .Ian
        = some (some Status.FREE) := by
  decide

/-- C1 amended: if the session is ONLINE and the remote write of a toggle
fails with a transient error, the in-memory slot shows the toggled status
immediately and the failure is recorded in syncError, but the session mode
stays ONLINE and LocalStore is not written; in the earlier toggleStatus
revision kept in App.tsx the same failure does set the mode OFFLINE, yet
still writes nothing to LocalStore. -/
theorem toggle_write_fail_behavior (st : EngineState) (wid : Nat)
    (n : FriendName)
    (honline : st.mode = Mode.ONLINE)
    (hpresent : ((st.weekends.find? fun w => decide (w.id = wid))).isSome) :
    (∀ v, getStatus st.weekends wid n = some (some v) →
       getStatus (toggleStepEff st wid n .fail).1.weekends wid n
         = some (some (flipStatus v)))
    ∧ (toggleStepEff st wid n .fail).1.mode = Mode.ONLINE
    ∧ (toggleStepEff st wid n .fail).1.store = st.store
    ∧ (toggleStepEff st wid n .fail).1.syncError = some errPush
    ∧ (toggleStepV1 st wid n .fail).isOfflineMode = true
    ∧ (toggleStepV1 st wid n .fail).store = st.store := by
  obtain ⟨hC, hO⟩ := (mode_eq_ONLINE_iff st).mp honline
  obtain ⟨w0, hw0⟩ := Option.isSome_iff_exists.mp hpresent
  have hne : (st.weekends.filter fun w => decide (w.id = wid)) ≠ [] := by
    intro h
    rw [List.filter_eq_nil_iff] at h
    exact h w0 (List.mem_of_find?_eq_some hw0)
      (by simpa using List.find?_some hw0)
  obtain ⟨wl, hlast⟩ : ∃ wl,
      (st.weekends.filter fun w => decide (w.id = wid)).getLast?
        = some wl := by
    cases hl : (st.weekends.filter fun w => decide (w.id = wid)).getLast?
        with
    | none => exact absurd (List.getLast?_eq_none_iff.mp hl) hne
    | some wl => exact ⟨wl, rfl⟩
  have hstep : (toggleStepEff st wid n .fail).1
      = { st with weekends := toggleSchedule st.weekends wid n
                  syncError := some errPush } := by
    unfold toggleStepEff
    rw [hlast]
    simp [hO]
  have hv1 : toggleStepV1 st wid n .fail
      = { st with weekends := toggleSchedule st.weekends wid n
                  isOfflineMode := true } := by
    unfold toggleStepV1
    rw [hlast]
    simp [hO]
  refine ⟨?_, ?_, ?_, ?_, ?_, ?_⟩
  · intro v hv
    unfold getStatus at hv
    rw [hw0] at hv
    have hv' : getKey w0.status n.str = some v := by simpa using hv
    rw [hstep]
    show getStatus (toggleSchedule st.weekends wid n) wid n
      = some (some (flipStatus v))
    rw [getStatus_toggleSchedule n hw0, newStatusOf_eq_flip hv']
  · rw [hstep]
    exact (mode_eq_ONLINE_iff _).mpr ⟨hC, hO⟩
  · rw [hstep]
  · rw [hstep]
  · rw [hv1]
  · rw [hv1]

/-- Witness for toggle_write_fail_behavior: the one-slot online session,
toggling Ian on slot 5 with a failing write. -/
theorem toggle_write_fail_behavior_witness :
    exOnlineState.mode = Mode.ONLINE
    ∧ ((exOnlineState.weekends.find? fun w => decide (w.id = 5))).isSome
    ∧ ((∀ v, getStatus exOnlineState.weekends 5 .Ian = some (some v) →
          getStatus (toggleStepEff exOnlineState 5 .Ian .fail).1.weekends
            5 .Ian = some (some (flipStatus v)))
      ∧ (toggleStepEff exOnlineState 5 .Ian .fail).1.mode = Mode.ONLINE
      ∧ (toggleStepEff exOnlineState 5 .Ian .fail).1.store
          = exOnlineState.store
      ∧ (toggleStepEff exOnlineState 5 .Ian .fail).1.syncError
          = some errPush
      ∧ (toggleStepV1 exOnlineState 5 .Ian .fail).isOfflineMode = true
      ∧ (toggleStepV1 exOnlineState 5 .Ian .fail).store
          = exOnlineState.store) :=
  ⟨rfl, by decide,
    toggle_write_fail_behavior exOnlineState 5 .Ian rfl (by decide)⟩

end SquadSync
